import Mathlib

/-!
Verification development for the CEX wallet tracker sources: the range
parser (src/src/services/ranges.ts), the balance-diff extractors
(src/unnamed/part_000, the blockParser module, and
src/src/services/txParser.ts), the polling block monitor
(src/src/services/blockMonitor.ts) and the listener block monitor
(src/src/services/blockMonitorListener.ts).

JavaScript numbers are modelled as `Option ℚ` where `none` stands for NaN;
machine floats are modelled by rationals, so float rounding is outside the
model. Strings are Lean strings; the character-level operations of the
range parser act on `String.data`. Code that can raise a runtime TypeError
is modelled with `Except` or with an explicit completion flag.
-/

deriving instance DecidableEq for Except

namespace CexTracker

/-- JavaScript numeric values as used by the range parser: `some q` is an
ordinary numeric value and `none` models NaN. -/
abbrev JsNum := Option ℚ

/-- Model of the JavaScript single-character split `str.split(c)`, acting on
the character list of the string. The result is always non-empty; adjacent
separators produce empty segments, as in JS. -/
def splitOnChar (c : Char) : List Char → List (List Char)
  | [] => [[]]
  | x :: xs =>
    let r := splitOnChar c xs
    if x = c then [] :: r
    else (x :: r.headD []) :: r.tail

/-- Whitespace characters removed by the JS string trim, restricted to the
common ASCII ones. -/
def isJsSpace (c : Char) : Bool := c = ' ' || c = '\t' || c = '\n' || c = '\r'

/-- Model of the JS string trim on character lists. -/
def trimChars (l : List Char) : List Char :=
  ((l.dropWhile isJsSpace).reverse.dropWhile isJsSpace).reverse

/-- Check that every character of the list is a decimal digit. -/
def allDigits (l : List Char) : Bool := l.all (fun c => c.isDigit)

/-- Numeric value of a list of decimal digit characters. -/
def digitsToNat (l : List Char) : ℕ := l.foldl (fun a c => a * 10 + (c.toNat - 48)) 0

/-- Unsigned decimal literal: digits with an optional fractional part, at
least one digit in total, at most one dot. Anything else is NaN. -/
def parseUnsigned (l : List Char) : JsNum :=
  match splitOnChar '.' l with
  | [ip] => if ip ≠ [] ∧ allDigits ip then some (mkRat (digitsToNat ip) 1) else none
  | [ip, fp] =>
    if (ip ≠ [] ∨ fp ≠ []) ∧ allDigits ip ∧ allDigits fp then
      some (mkRat (digitsToNat ip * 10 ^ fp.length + digitsToNat fp) (10 ^ fp.length))
    else none
  | _ => none

/-- Model of JavaScript `Number(string)` restricted to the decimal-literal
fragment: surrounding whitespace is trimmed, the empty string converts to 0,
an optional sign is followed by integer and fractional digits, and anything
else converts to NaN (`none`). Hexadecimal and exponent literals lie outside
the modelled fragment; range specifications use plain decimals. -/
def jsNumber (l : List Char) : JsNum :=
  match trimChars l with
  | [] => some 0
  | '-' :: rest => (parseUnsigned rest).map (fun q => -q)
  | '+' :: rest => parseUnsigned rest
  | t => parseUnsigned t

/-- Model of the `Range` record of src/src/services/ranges.ts; either bound
may be NaN. -/
structure Range where
  min : JsNum
  max : JsNum
  deriving DecidableEq

/-- Model of the token step of `parseRanges`: destructuring the split of the
token on the dash takes the first two segments; a missing second segment is
undefined and `Number(undefined)` is NaN. -/
def tokenToRange (token : List Char) : Range :=
  let parts := splitOnChar '-' token
  { min := match parts.get? 0 with | some a => jsNumber a | none => none,
    max := match parts.get? 1 with | some b => jsNumber b | none => none }

/-- Character-list core of `parseRanges` in src/src/services/ranges.ts:
the falsy guard returns the empty list on the empty string, otherwise the
string is split on commas, each token is trimmed, empty tokens are dropped,
and the remaining tokens become intervals. -/
def parseRangesL (l : List Char) : List Range :=
  if l = [] then []
  else (((splitOnChar ',' l).map trimChars).filter (fun t => !t.isEmpty)).map tokenToRange

/-- Model of `parseRanges` in src/src/services/ranges.ts. -/
def parseRanges (rangeStr : String) : List Range := parseRangesL rangeStr.data

/-- JavaScript `<=` on the numeric model: any comparison with NaN is false. -/
def jsLe (a b : JsNum) : Bool :=
  match a, b with
  | some x, some y => decide (x ≤ y)
  | _, _ => false

/-- Model of `amountMatchesRanges` in src/src/services/ranges.ts: the loop
returns true on the first interval that contains the amount, inclusively at
both bounds; comparisons against a NaN bound are false. -/
def amountMatchesRanges (amount : ℚ) (ranges : List Range) : Bool :=
  ranges.any (fun r => jsLe r.min (some amount) && jsLe (some amount) r.max)

/-- Balance arrays of the transaction meta object. Each field is `none` when
the corresponding property is missing; balances are lamport integers. -/
structure TxMeta where
  preBalances : Option (List Int)
  postBalances : Option (List Int)
  deriving DecidableEq

/-- Transaction object of one block transaction record: the signature array
and the account keys of the message, each key already rendered as its
base58 string. -/
structure TxData where
  signatures : List String
  accountKeys : List String
  deriving DecidableEq

/-- Model of one entry of blockData.transactions. The `transaction` field is
`none` when the record lacks a transaction object; reading a property of it
then raises a TypeError in JS, which the embedding reports through `Except`
or a completion flag. -/
structure Tx where
  transaction : Option TxData
  meta : Option TxMeta
  deriving DecidableEq

/-- Model of the JS `Array.prototype.findIndex` and `indexOf` returning an
optional index instead of -1. -/
def findIdxA (p : String → Bool) : List String → Option ℕ
  | [] => none
  | x :: xs => if p x then some 0 else (findIdxA p xs).map (fun i => i + 1)

/-- Shared shape of the receiver scan loops of blockParser.js
(src/unnamed/part_000) and src/src/services/txParser.ts: fold over the
indices below `bound`, keeping the first index with the strictly largest
positive balance gain that differs from the target index. `pick` renders
the chosen index; the two sources differ in `pick` and in the loop bound. -/
def maxGainFold {α : Type} (pick : ℕ → α) (dflt : α) (pre post : List Int)
    (idx : ℕ) : ℕ → α × Int
  | 0 => (dflt, 0)
  | n + 1 =>
    let acc := maxGainFold pick dflt pre post idx n
    let gain := post.getD n 0 - pre.getD n 0
    if acc.2 < gain ∧ n ≠ idx then (pick n, gain) else acc

/-- Receiver scan of blockParser.js: the loop runs over the postBalances
indices; an index beyond the key array renders as the string produced by
JS string coercion of undefined. -/
def findReceiver (keys : List String) (pre post : List Int) (cexIdx : ℕ) : String × Int :=
  maxGainFold (fun i => (keys.get? i).getD ("undefined")) ("") pre post cexIdx post.length

/-- Outflow record produced by blockParser.js; the amount is in SOL. -/
structure Outflow where
  amount : ℚ
  receiver : String
  deriving DecidableEq

/-- Model of `parseBlockTransactions` in blockParser.js
(src/unnamed/part_000). The meta null check precedes the read of the
transaction object, so a record with meta but no transaction object raises;
the event is pushed only when a receiver with positive gain was found. -/
def parseBlockTransactions (tx : Tx) (cexAddress : String) : Except Unit (List Outflow) :=
  match tx.meta with
  | none => Except.ok []
  | some meta =>
    match tx.transaction with
    | none => Except.error ()
    | some td =>
      match findIdxA (fun k => k == cexAddress) td.accountKeys with
      | none => Except.ok []
      | some cexIdx =>
        match meta.preBalances, meta.postBalances with
        | some pre, some post =>
          let lamportsOut := pre.getD cexIdx 0 - post.getD cexIdx 0
          if 0 < lamportsOut then
            let rg := findReceiver td.accountKeys pre post cexIdx
            if rg.1 ≠ "" ∧ 0 < rg.2 then
              Except.ok [{ amount := mkRat lamportsOut 1000000000, receiver := rg.1 }]
            else Except.ok []
          else Except.ok []
        | _, _ => Except.ok []

/-- Result record of txParser.ts; the receiver may stay undefined. -/
structure OutgoingResult where
  amount : ℚ
  receiver : Option String
  deriving DecidableEq

/-- Receiver scan of txParser.ts: the loop runs over the preBalances
indices and the receiver is the raw indexed key, undefined out of range. -/
def findReceiverOutgoing (keys : List String) (pre post : List Int) (idx : ℕ) :
    Option String × Int :=
  maxGainFold (fun i => keys.get? i) none pre post idx pre.length

/-- Model of `parseOutgoing` in src/src/services/txParser.ts. The message
property of the transaction object is read before the meta null check, so a
record without a transaction object raises even when meta is null; when the
target balance strictly decreased the result is always returned, with the
receiver possibly undefined. -/
def parseOutgoing (tx : Tx) (cexAddress : String) : Except Unit (Option OutgoingResult) :=
  match tx.transaction with
  | none => Except.error ()
  | some td =>
    match tx.meta with
    | none => Except.ok none
    | some meta =>
      match findIdxA (fun k => k == cexAddress) td.accountKeys with
      | none => Except.ok none
      | some idx =>
        match meta.preBalances, meta.postBalances with
        | some pre, some post =>
          let lamportsOut := pre.getD idx 0 - post.getD idx 0
          if 0 < lamportsOut then
            Except.ok (some { amount := mkRat lamportsOut 1000000000,
                              receiver := (findReceiverOutgoing td.accountKeys pre post idx).1 })
          else Except.ok none
        | _, _ => Except.ok none

/-- Watched wallet configuration as read from the environment. -/
structure CexConfig where
  label : String
  address : String
  ranges : String
  deriving DecidableEq

/-- Data carried by one dispatched range-match notification
(blockMonitor.ts line 157): label, amount, receiver, and the transaction
signature from which the explorer link is built. -/
structure Alert where
  label : String
  amount : ℚ
  receiver : String
  signature : String
  deriving DecidableEq

/-- Externally visible effects of the monitor loops: a dispatched alert or
a watermark persistence call (saveLastSlot). -/
inductive MonitorEffect where
  | alert (a : Alert)
  | saveWatermark (n : ℕ)
  deriving DecidableEq

/-- Model of the per-transaction body shared by the polling monitor
(blockMonitor.ts lines 137-162) and the listener (blockMonitorListener.ts
lines 102-127): the result is the list of alerts dispatched for this
transaction and a flag telling whether the body completed without throwing.
A record without a transaction object throws at the signature read; a falsy
first signature skips the record. -/
def processTx (configs : List CexConfig) (tx : Tx) : List Alert × Bool :=
  match tx.transaction with
  | none => ([], false)
  | some td =>
    match td.signatures.get? 0 with
    | none => ([], true)
    | some sig =>
      if sig = "" then ([], true)
      else
        configs.foldl
          (fun acc cfg =>
            if acc.2 then
              match parseBlockTransactions tx cfg.address with
              | Except.error _ => (acc.1, false)
              | Except.ok outflows =>
                (acc.1 ++ ((outflows.filter
                      (fun o => amountMatchesRanges o.amount (parseRanges cfg.ranges))).map
                    (fun o => { label := cfg.label, amount := o.amount,
                                receiver := o.receiver, signature := sig })), true)
            else acc)
          ([], true)

/-- Model of the transaction loop over one block
(blockMonitor.ts lines 137-162): transactions are processed sequentially
and the first throw aborts the rest of the block, keeping the alerts
already dispatched. -/
def processBlockTxs (configs : List CexConfig) (txs : List Tx) : List Alert × Bool :=
  txs.foldl
    (fun acc tx =>
      if acc.2 then
        let r := processTx configs tx
        (acc.1 ++ r.1, r.2)
      else acc)
    ([], true)

/-- Outcome of one getBlock call in the polling monitor: a present block
with its transactions; a fetch error whose message marks the slot skipped
or missing in long-term storage; any other fetch error (transient); or a
null result without transactions (block not produced yet). -/
inductive FetchResult where
  | present (txs : List Tx)
  | skippedOrMissing
  | transientError
  | notProduced
  deriving DecidableEq

/-- Model of the ordered drain of one fetched batch (blockMonitor.ts lines
110-170): walk the batch slots in order, advancing the processed prefix
over present blocks and skipped slots and stopping at the first transient
error, unproduced block, or processing throw. The result is the new
processed prefix end together with the effects emitted along the way. -/
def drainBatch (configs : List CexConfig) :
    List (ℕ × FetchResult) → ℕ → ℕ × List MonitorEffect
  | [], processedUpTo => (processedUpTo, [])
  | (s, r) :: rest, processedUpTo =>
    match r with
    | FetchResult.skippedOrMissing => drainBatch configs rest s
    | FetchResult.transientError => (processedUpTo, [])
    | FetchResult.notProduced => (processedUpTo, [])
    | FetchResult.present txs =>
      let pr := processBlockTxs configs txs
      if pr.2 then
        let next := drainBatch configs rest s
        (next.1, pr.1.map MonitorEffect.alert ++ next.2)
      else (processedUpTo, pr.1.map MonitorEffect.alert)

/-- Fuel-indexed slicing helper; the fuel is instantiated with the list
length, which suffices for chunk sizes of at least one. -/
def chunkAux {α : Type} (n : ℕ) : ℕ → List α → List (List α)
  | 0, _ => []
  | _ + 1, [] => []
  | fuel + 1, x :: xs => (x :: xs.take (n - 1)) :: chunkAux n fuel (xs.drop (n - 1))

/-- Batching of the pending slots (blockMonitor.ts line 90): consecutive
slices of size `n`, in order. The JS loop does not terminate on a chunk
size of zero; the model treats that unused case like size one. -/
def chunkList {α : Type} (n : ℕ) (l : List α) : List (List α) := chunkAux n l.length l

/-- Pending range of slots of one outer iteration (blockMonitor.ts lines
86-87): all slots strictly between the watermark and the current slot,
inclusive of the latter. -/
def gapSlots (lastSlot slot : ℕ) : List ℕ := List.range' (lastSlot + 1) (slot - lastSlot)

/-- Model of one outer iteration of the polling monitor over a computed gap
(blockMonitor.ts lines 84-177): the pending slots are cut into batches of
size `conc`, the fetch outcome of each slot is given by `fetch`, each batch
is drained in order, and after each batch the watermark advances to the
drained prefix end when that is larger. The loop body contains no call of
saveLastSlot, so the effect list collects alerts only. -/
def drainGap (configs : List CexConfig) (fetch : ℕ → FetchResult)
    (lastSlot slot conc : ℕ) : ℕ × List MonitorEffect :=
  if lastSlot < slot then
    (chunkList conc (gapSlots lastSlot slot)).foldl
      (fun st batch =>
        let dr := drainBatch configs (batch.map (fun s => (s, fetch s))) st.1
        ((if st.1 < dr.1 then dr.1 else st.1), st.2 ++ dr.2))
      (lastSlot, [])
  else (lastSlot, [])

/-- Startup seeding of the in-memory watermark (blockMonitor.ts lines 56
and 62-74): the persisted map read by loadLastSlot is bound to a local that
the loop never uses; lastSlot starts at 0 and is set to the current slot
when the initial getSlot call succeeds. -/
def initLastSlot (_persisted : Option ℕ) (getSlotResult : Except Unit ℕ) : ℕ :=
  match getSlotResult with
  | Except.ok h => h
  | Except.error _ => 0

/-- Result of one run of the listener queue drain: the in-memory watermark,
the remaining queue, and the emitted effects in order. -/
structure QueueResult where
  lastSlot : ℕ
  queue : List ℕ
  effects : List MonitorEffect
  deriving DecidableEq

/-- Model of `processQueue` in blockMonitorListener.ts (lines 80-145):
drain the slot queue in order; slots at or below the watermark are dropped;
a missing or unproduced block advances the watermark, as does a processed
block, and each advance is immediately followed by a saveLastSlot call
(`saveOk` tells whether that write succeeds). A fetch throw, a processing
throw, or a save throw re-queues the slot at the front and stops this run;
an advance made before a failing save is not rolled back. -/
def processQueue (configs : List CexConfig) (fetch : ℕ → Except Unit (Option (List Tx)))
    (saveOk : ℕ → Bool) : List ℕ → ℕ → QueueResult
  | [], lastSlot => { lastSlot := lastSlot, queue := [], effects := [] }
  | s :: rest, lastSlot =>
    if s ≤ lastSlot then processQueue configs fetch saveOk rest lastSlot
    else
      match fetch s with
      | Except.error _ => { lastSlot := lastSlot, queue := s :: rest, effects := [] }
      | Except.ok none =>
        if saveOk s then
          let r := processQueue configs fetch saveOk rest s
          { lastSlot := r.lastSlot, queue := r.queue,
            effects := MonitorEffect.saveWatermark s :: r.effects }
        else
          { lastSlot := s, queue := s :: rest,
            effects := [MonitorEffect.saveWatermark s] }
      | Except.ok (some txs) =>
        let pr := processBlockTxs configs txs
        if pr.2 then
          if saveOk s then
            let r := processQueue configs fetch saveOk rest s
            { lastSlot := r.lastSlot, queue := r.queue,
              effects := pr.1.map MonitorEffect.alert ++
                MonitorEffect.saveWatermark s :: r.effects }
          else
            { lastSlot := s, queue := s :: rest,
              effects := pr.1.map MonitorEffect.alert ++
                [MonitorEffect.saveWatermark s] }
        else
          { lastSlot := lastSlot, queue := s :: rest,
            effects := pr.1.map MonitorEffect.alert }

/-- Unbatched variant of the token pipeline of `parseRangesL`, used to state
distribution lemmas; it agrees with `parseRangesL` because the empty string
also produces no token that survives the empty-token filter. -/
def rangesOf (l : List Char) : List Range :=
  (((splitOnChar ',' l).map trimChars).filter (fun t => !t.isEmpty)).map tokenToRange

theorem splitOnChar_ne_nil (c : Char) (l : List Char) : splitOnChar c l ≠ [] := by
  induction l with
  | nil => simp [splitOnChar]
  | cons x xs ih =>
    simp only [splitOnChar]
    by_cases h : x = c
    · simp [h]
    · simp [h]

theorem splitOnChar_append (c : Char) (l1 l2 : List Char) :
    splitOnChar c (l1 ++ c :: l2) = splitOnChar c l1 ++ splitOnChar c l2 := by
  induction l1 with
  | nil => simp [splitOnChar]
  | cons x xs ih =>
    obtain ⟨y, ys, hy⟩ : ∃ y ys, splitOnChar c xs = y :: ys := by
      cases hh : splitOnChar c xs with
      | nil => exact absurd hh (splitOnChar_ne_nil c xs)
      | cons y ys => exact ⟨y, ys, rfl⟩
    by_cases h : x = c
    · simp [splitOnChar, h, ih]
    · simp [splitOnChar, h, ih, hy]

theorem parseRangesL_eq_rangesOf (l : List Char) : parseRangesL l = rangesOf l := by
  cases l with
  | nil => decide
  | cons x xs => simp [parseRangesL, rangesOf]

theorem rangesOf_append (l1 l2 : List Char) :
    rangesOf (l1 ++ ',' :: l2) = rangesOf l1 ++ rangesOf l2 := by
  simp [rangesOf, splitOnChar_append]

theorem jsLe_pair_iff (x y : JsNum) (a : ℚ) :
    (jsLe x (some a) && jsLe (some a) y) = true ↔
      ∃ mn mx : ℚ, x = some mn ∧ y = some mx ∧ mn ≤ a ∧ a ≤ mx := by
  cases x with
  | none => simp [jsLe]
  | some mn =>
    cases y with
    | none => simp [jsLe]
    | some mx => simp [jsLe]

/-- C10: tokens of the range specification that are empty after trimming are
dropped before parsing, so stray, doubled, leading, or trailing commas
contribute no interval at all; in particular a specification ending in two
commas yields exactly one interval and no NaN interval, and commas
distribute over the parse, so each comma only separates and never adds. -/
theorem parseRanges_drops_empty_tokens :
    parseRanges ("17-21,,") = [{ min := some 17, max := some 21 }] ∧
    parseRanges (" , ") = [] ∧
    ∀ l1 l2 : List Char, parseRangesL (l1 ++ ',' :: l2) = parseRangesL l1 ++ parseRangesL l2 := by
  refine ⟨by decide, by decide, ?_⟩
  intro l1 l2
  rw [parseRangesL_eq_rangesOf, parseRangesL_eq_rangesOf, parseRangesL_eq_rangesOf,
    rangesOf_append]

/-- C8 counterexample: the single token 50 is malformed in the sense of the
claim (its separator is missing), yet the parsed interval has the number 50
as its min bound, not NaN, so the bounds of a malformed token are not
always not-a-number; and the token 17-21-30 is not split on only its first
dash into the endpoints 17 and NaN: the code keeps the first two dash
segments, producing the interval from 17 to 21, which matches the
amount 20. -/
theorem ranges_malformed_counterexample :
    parseRanges ("50") = [{ min := some 50, max := none }] ∧
    parseRanges ("17-21-30") = [{ min := some 17, max := some 21 }] ∧
    amountMatchesRanges 20 (parseRanges ("17-21-30")) = true := by decide

/-- C8 amended: parse splits the specification on commas, trims whitespace,
drops empty tokens, and reads the first two dash-separated segments of each
token as numeric endpoints; a token with a missing or non-numeric endpoint
yields an interval with a NaN bound that never matches any amount;
parse of the two-token specification yields exactly the two intervals in
input order and parse of the empty string yields the empty sequence;
matches is true iff
some interval has numeric bounds enclosing the amount inclusively, so the
empty sequence matches nothing. -/
theorem ranges_contract :
    (∀ (a : ℚ) (rs : List Range),
        amountMatchesRanges a rs = true ↔
          ∃ r ∈ rs, ∃ mn mx : ℚ, r.min = some mn ∧ r.max = some mx ∧ mn ≤ a ∧ a ≤ mx) ∧
    parseRanges ("17-21,50-100") =
      [{ min := some 17, max := some 21 }, { min := some 50, max := some 100 }] ∧
    parseRanges ("") = [] ∧
    (∀ (a : ℚ) (r : Range), r.min = none ∨ r.max = none →
        (jsLe r.min (some a) && jsLe (some a) r.max) = false) ∧
    (∀ a : ℚ, amountMatchesRanges a (parseRanges ("50")) = false ∧
        amountMatchesRanges a (parseRanges ("abc-def")) = false) := by
  refine ⟨?_, by decide, by decide, ?_, ?_⟩
  · intro a rs
    simp only [amountMatchesRanges, List.any_eq_true, jsLe_pair_iff]
  · intro a r h
    rcases h with h | h <;> rcases r with ⟨mn, mx⟩
    · cases mx <;> simp_all [jsLe]
    · cases mn <;> simp_all [jsLe]
  · intro a
    have h50 : parseRanges ("50") = [{ min := some 50, max := none }] := by decide
    have habc : parseRanges ("abc-def") = [{ min := none, max := none }] := by decide
    rw [h50, habc]
    simp [amountMatchesRanges, jsLe]

/-- Witness for the C8 amended theorem at concrete inputs: the boundary
amount 17 is matched by the parsed specification. -/
theorem ranges_contract_witness :
    amountMatchesRanges 17 (parseRanges ("17-21,50-100")) = true := by
  exact (ranges_contract.1 17 _).mpr
    ⟨{ min := some 17, max := some 21 }, by decide, 17, 21, rfl, rfl, le_refl 17, by decide⟩

theorem maxGainFold_shape {α : Type} (pick : ℕ → α) (dflt : α) (pre post : List Int)
    (idx : ℕ) : ∀ bound : ℕ,
    maxGainFold pick dflt pre post idx bound = (dflt, 0) ∨
      ∃ i, i < bound ∧ i ≠ idx ∧ 0 < post.getD i 0 - pre.getD i 0 ∧
        maxGainFold pick dflt pre post idx bound = (pick i, post.getD i 0 - pre.getD i 0) := by
  intro bound
  induction bound with
  | zero => exact Or.inl rfl
  | succ n ih =>
    by_cases h : (maxGainFold pick dflt pre post idx n).2 < post.getD n 0 - pre.getD n 0 ∧
        n ≠ idx
    · right
      have hpos : 0 < post.getD n 0 - pre.getD n 0 := by
        rcases ih with h0 | ⟨i, _, _, hp, heq⟩
        · rw [h0] at h; exact h.1
        · rw [heq] at h; exact lt_trans hp h.1
      exact ⟨n, Nat.lt_succ_self n, h.2, hpos, by simp only [maxGainFold, if_pos h]⟩
    · rcases ih with h0 | ⟨i, hi, hne, hp, heq⟩
      · exact Or.inl (by simp only [maxGainFold, if_neg h]; exact h0)
      · exact Or.inr ⟨i, Nat.lt_succ_of_lt hi, hne, hp,
          by simp only [maxGainFold, if_neg h]; exact heq⟩

theorem maxGainFold_no_gain {α : Type} (pick : ℕ → α) (dflt : α) (pre post : List Int)
    (idx : ℕ) : ∀ bound : ℕ,
    (∀ i, i < bound → i ≠ idx → post.getD i 0 - pre.getD i 0 ≤ 0) →
    maxGainFold pick dflt pre post idx bound = (dflt, 0) := by
  intro bound
  induction bound with
  | zero => intro _; rfl
  | succ n ih =>
    intro h
    have hn : maxGainFold pick dflt pre post idx n = (dflt, 0) :=
      ih (fun i hi => h i (Nat.lt_succ_of_lt hi))
    have hcond : ¬ ((maxGainFold pick dflt pre post idx n).2 <
        post.getD n 0 - pre.getD n 0 ∧ n ≠ idx) := by
      rintro ⟨hlt, hne⟩
      rw [hn] at hlt
      exact absurd (h n (Nat.lt_succ_self n) hne) (not_le.mpr hlt)
    simp only [maxGainFold, if_neg hcond]
    exact hn

theorem maxGainFold_first_max {α : Type} (pick : ℕ → α) (dflt : α) (pre post : List Int)
    (idx j : ℕ) (hji : j ≠ idx) (hjpos : 0 < post.getD j 0 - pre.getD j 0) :
    ∀ bound : ℕ, j < bound →
    (∀ i, i < bound → i ≠ idx →
      post.getD i 0 - pre.getD i 0 ≤ post.getD j 0 - pre.getD j 0) →
    (∀ i, i < j → i ≠ idx →
      post.getD i 0 - pre.getD i 0 < post.getD j 0 - pre.getD j 0) →
    maxGainFold pick dflt pre post idx bound = (pick j, post.getD j 0 - pre.getD j 0) := by
  intro bound
  induction bound with
  | zero => intro h; exact absurd h (Nat.not_lt_zero j)
  | succ n ih =>
    intro hjb hmax hfirst
    by_cases hjn : j = n
    · subst hjn
      have hlt : (maxGainFold pick dflt pre post idx j).2 <
          post.getD j 0 - pre.getD j 0 := by
        rcases maxGainFold_shape pick dflt pre post idx j with h0 | ⟨i, hi, hne, _, heq⟩
        · rw [h0]; exact hjpos
        · rw [heq]; exact hfirst i hi hne
      simp only [maxGainFold, if_pos (And.intro hlt hji)]
    · have hjn2 : j < n := lt_of_le_of_ne (Nat.lt_succ_iff.mp hjb) hjn
      have hprev := ih hjn2 (fun i hi => hmax i (Nat.lt_succ_of_lt hi)) hfirst
      have hcond : ¬ ((maxGainFold pick dflt pre post idx n).2 <
          post.getD n 0 - pre.getD n 0 ∧ n ≠ idx) := by
        rintro ⟨hlt, hne⟩
        rw [hprev] at hlt
        exact absurd (hmax n (Nat.lt_succ_self n) hne) (not_le.mpr hlt)
      simp only [maxGainFold, if_neg hcond]
      exact hprev

theorem findIdxA_some (p : String → Bool) :
    ∀ (l : List String) (i : ℕ), findIdxA p l = some i →
      ∃ a, l.get? i = some a ∧ p a = true := by
  intro l
  induction l with
  | nil => intro i h; exact absurd h (by simp [findIdxA])
  | cons x xs ih =>
    intro i h
    by_cases hp : p x
    · rw [findIdxA, if_pos hp] at h
      cases h
      exact ⟨x, rfl, hp⟩
    · rw [findIdxA, if_neg hp] at h
      cases hfi : findIdxA p xs with
      | none => rw [hfi] at h; exact absurd h (by simp)
      | some k =>
        rw [hfi] at h
        simp at h
        obtain ⟨a, ha, hpa⟩ := ih k hfi
        exact ⟨a, by rw [← h]; exact ha, hpa⟩

/-- C6: both extractors select as receiver the account with the largest
positive balance gain among the indices distinct from the first index
matching the target, ties broken by the first index encountered; the
reported amount is the target lamport decrease `d` rendered in SOL, that
is `d / 10^9`, so a decrease by `X` SOL with a single other account gaining
`X` SOL yields an event with amount exactly `X` and that account as
receiver. -/
theorem extract_receiver_largest_gain
    (sigs keys : List String) (pre post : List Int) (target recv : String)
    (idx j : ℕ) (d : Int)
    (hidx : findIdxA (fun k => k == target) keys = some idx)
    (hd : pre.getD idx 0 - post.getD idx 0 = d)
    (hdpos : 0 < d)
    (hjpost : j < post.length) (hjpre : j < pre.length) (hji : j ≠ idx)
    (hjpos : 0 < post.getD j 0 - pre.getD j 0)
    (hmaxPost : ∀ i, i < post.length → i ≠ idx →
      post.getD i 0 - pre.getD i 0 ≤ post.getD j 0 - pre.getD j 0)
    (hmaxPre : ∀ i, i < pre.length → i ≠ idx →
      post.getD i 0 - pre.getD i 0 ≤ post.getD j 0 - pre.getD j 0)
    (hfirst : ∀ i, i < j → i ≠ idx →
      post.getD i 0 - pre.getD i 0 < post.getD j 0 - pre.getD j 0)
    (hrecv : keys.get? j = some recv) (hrne : recv ≠ "") :
    parseBlockTransactions
        { transaction := some { signatures := sigs, accountKeys := keys },
          meta := some { preBalances := some pre, postBalances := some post } } target
      = Except.ok [{ amount := mkRat d 1000000000, receiver := recv }] ∧
    parseOutgoing
        { transaction := some { signatures := sigs, accountKeys := keys },
          meta := some { preBalances := some pre, postBalances := some post } } target
      = Except.ok (some { amount := mkRat d 1000000000, receiver := some recv }) := by
  have hrecvPost : findReceiver keys pre post idx =
      ((keys.get? j).getD ("undefined"), post.getD j 0 - pre.getD j 0) :=
    maxGainFold_first_max _ _ pre post idx j hji hjpos post.length hjpost hmaxPost hfirst
  have hrecvPre : findReceiverOutgoing keys pre post idx =
      (keys.get? j, post.getD j 0 - pre.getD j 0) :=
    maxGainFold_first_max _ _ pre post idx j hji hjpos pre.length hjpre hmaxPre hfirst
  constructor
  · simp only [parseBlockTransactions, hidx, hd, if_pos hdpos, hrecvPost, hrecv,
      Option.getD_some]
    rw [if_pos (And.intro hrne hjpos)]
  · simp only [parseOutgoing, hidx, hd, if_pos hdpos, hrecvPre, hrecv]

/-- Witness for the C6 theorem: the target loses 19.5 SOL and the single
other account gains 19.5 SOL, so the event carries amount 19.5 and that
account as receiver, in both extractors. -/
theorem extract_receiver_largest_gain_witness :
    parseBlockTransactions
        { transaction := some { signatures := ["s"], accountKeys := ["ACC1", "ACC2"] },
          meta := some { preBalances := some [20000000000, 1000],
                         postBalances := some [500000000, 19500001000] } } ("ACC1")
      = Except.ok [{ amount := mkRat 19500000000 1000000000, receiver := "ACC2" }] ∧
    parseOutgoing
        { transaction := some { signatures := ["s"], accountKeys := ["ACC1", "ACC2"] },
          meta := some { preBalances := some [20000000000, 1000],
                         postBalances := some [500000000, 19500001000] } } ("ACC1")
      = Except.ok (some { amount := mkRat 19500000000 1000000000,
                          receiver := some ("ACC2") }) := by
  exact extract_receiver_largest_gain ["s"] ["ACC1", "ACC2"] [20000000000, 1000]
    [500000000, 19500001000] ("ACC1") ("ACC2") 0 1 19500000000 (by decide) (by decide)
    (by decide) (by decide) (by decide) (by decide) (by decide) (by decide) (by decide)
    (by decide) (by decide) (by decide)

/-- C7: the extractors produce no event when the target is absent from the
account list or when its balance did not strictly decrease, and they never
produce more than one event per transaction and target. -/
theorem extract_none_cases :
    (∀ (tx : Tx) (target : String) (l : List Outflow),
        parseBlockTransactions tx target = Except.ok l → l.length ≤ 1) ∧
    (∀ (sigs keys : List String) (pre post : List Int) (target : String),
        findIdxA (fun k => k == target) keys = none →
        parseBlockTransactions
            { transaction := some { signatures := sigs, accountKeys := keys },
              meta := some { preBalances := some pre, postBalances := some post } } target
          = Except.ok [] ∧
        parseOutgoing
            { transaction := some { signatures := sigs, accountKeys := keys },
              meta := some { preBalances := some pre, postBalances := some post } } target
          = Except.ok none) ∧
    (∀ (sigs keys : List String) (pre post : List Int) (target : String) (idx : ℕ),
        findIdxA (fun k => k == target) keys = some idx →
        pre.getD idx 0 - post.getD idx 0 ≤ 0 →
        parseBlockTransactions
            { transaction := some { signatures := sigs, accountKeys := keys },
              meta := some { preBalances := some pre, postBalances := some post } } target
          = Except.ok [] ∧
        parseOutgoing
            { transaction := some { signatures := sigs, accountKeys := keys },
              meta := some { preBalances := some pre, postBalances := some post } } target
          = Except.ok none) := by
  refine ⟨?_, ?_, ?_⟩
  · intro tx target l h
    obtain ⟨t, m⟩ := tx
    cases m with
    | none =>
      simp only [parseBlockTransactions, Except.ok.injEq] at h
      rw [← h]
      decide
    | some meta =>
      cases t with
      | none =>
        simp only [parseBlockTransactions] at h
        exact Except.noConfusion h
      | some td =>
        cases hfi : findIdxA (fun k => k == target) td.accountKeys with
        | none =>
          simp only [parseBlockTransactions, hfi, Except.ok.injEq] at h
          rw [← h]; decide
        | some cexIdx =>
          cases hpre : meta.preBalances with
          | none =>
            simp only [parseBlockTransactions, hfi, hpre, Except.ok.injEq] at h
            rw [← h]; decide
          | some pre =>
            cases hpost : meta.postBalances with
            | none =>
              simp only [parseBlockTransactions, hfi, hpre, hpost, Except.ok.injEq] at h
              rw [← h]; decide
            | some post =>
              simp only [parseBlockTransactions, hfi, hpre, hpost] at h
              by_cases hlt : 0 < pre.getD cexIdx 0 - post.getD cexIdx 0
              · rw [if_pos hlt] at h
                by_cases hc : (findReceiver td.accountKeys pre post cexIdx).1 ≠ "" ∧
                    0 < (findReceiver td.accountKeys pre post cexIdx).2
                · rw [if_pos hc] at h
                  simp only [Except.ok.injEq] at h
                  rw [← h]; simp
                · rw [if_neg hc] at h
                  simp only [Except.ok.injEq] at h
                  rw [← h]; decide
              · rw [if_neg hlt] at h
                simp only [Except.ok.injEq] at h
                rw [← h]; decide
  · intro sigs keys pre post target hfi
    constructor
    · simp only [parseBlockTransactions, hfi]
    · simp only [parseOutgoing, hfi]
  · intro sigs keys pre post target idx hfi hle
    have hlt : ¬ 0 < pre.getD idx 0 - post.getD idx 0 := not_lt.mpr hle
    constructor
    · simp only [parseBlockTransactions, hfi, if_neg hlt]
    · simp only [parseOutgoing, hfi, if_neg hlt]

/-- Witness for the C7 theorem: a target absent from the account list gives
no event, and a target with unchanged balance gives no event. -/
theorem extract_none_cases_witness :
    parseBlockTransactions
        { transaction := some { signatures := ["s"], accountKeys := ["AAA"] },
          meta := some { preBalances := some [5], postBalances := some [5] } } ("BBB")
      = Except.ok [] ∧
    parseOutgoing
        { transaction := some { signatures := ["s"], accountKeys := ["AAA"] },
          meta := some { preBalances := some [5], postBalances := some [5] } } ("BBB")
      = Except.ok none ∧
    parseBlockTransactions
        { transaction := some { signatures := ["s"], accountKeys := ["AAA"] },
          meta := some { preBalances := some [5], postBalances := some [5] } } ("AAA")
      = Except.ok [] := by
  refine ⟨?_, ?_, ?_⟩
  · exact (extract_none_cases.2.1 ["s"] ["AAA"] [5] [5] ("BBB") (by decide)).1
  · exact (extract_none_cases.2.1 ["s"] ["AAA"] [5] [5] ("BBB") (by decide)).2
  · exact (extract_none_cases.2.2 ["s"] ["AAA"] [5] [5] ("AAA") 0 (by decide) (by decide)).1

/-- C5 counterexample: in this transaction the target ACC1 strictly loses 10
lamports and no other account gains, yet parseBlockTransactions of
blockParser.js returns no event at all, suppressing the outflow instead of
emitting it with an empty receiver; parseOutgoing of txParser.ts, in
contrast, still emits the event with an undefined receiver. -/
theorem extract_suppressed_counterexample :
    parseBlockTransactions
        { transaction := some { signatures := ["s"], accountKeys := ["ACC1", "FEE"] },
          meta := some { preBalances := some [100, 50], postBalances := some [90, 50] } }
        ("ACC1")
      = Except.ok [] ∧
    parseOutgoing
        { transaction := some { signatures := ["s"], accountKeys := ["ACC1", "FEE"] },
          meta := some { preBalances := some [100, 50], postBalances := some [90, 50] } }
        ("ACC1")
      = Except.ok (some { amount := mkRat 10 1000000000, receiver := none }) := by decide

/-- C5 amended: when the target strictly loses `d` lamports and no other
account shows a positive gain, parseOutgoing of txParser.ts still emits the
event, with amount `d / 10^9` SOL and an undefined receiver, while
parseBlockTransactions of blockParser.js suppresses the event entirely. -/
theorem extract_no_gain_behaviour
    (sigs keys : List String) (pre post : List Int) (target : String)
    (idx : ℕ) (d : Int)
    (hidx : findIdxA (fun k => k == target) keys = some idx)
    (hd : pre.getD idx 0 - post.getD idx 0 = d) (hdpos : 0 < d)
    (hngPost : ∀ i, i < post.length → i ≠ idx → post.getD i 0 - pre.getD i 0 ≤ 0)
    (hngPre : ∀ i, i < pre.length → i ≠ idx → post.getD i 0 - pre.getD i 0 ≤ 0) :
    parseBlockTransactions
        { transaction := some { signatures := sigs, accountKeys := keys },
          meta := some { preBalances := some pre, postBalances := some post } } target
      = Except.ok [] ∧
    parseOutgoing
        { transaction := some { signatures := sigs, accountKeys := keys },
          meta := some { preBalances := some pre, postBalances := some post } } target
      = Except.ok (some { amount := mkRat d 1000000000, receiver := none }) := by
  have hPost : findReceiver keys pre post idx = ("", 0) :=
    maxGainFold_no_gain _ _ pre post idx post.length hngPost
  have hPre : findReceiverOutgoing keys pre post idx = (none, 0) :=
    maxGainFold_no_gain _ _ pre post idx pre.length hngPre
  constructor
  · simp only [parseBlockTransactions, hidx, hd, if_pos hdpos, hPost]
    rw [if_neg]
    simp
  · simp only [parseOutgoing, hidx, hd, if_pos hdpos, hPre]

/-- Witness for the C5 amended theorem at the concrete counterexample
transaction. -/
theorem extract_no_gain_behaviour_witness :
    parseBlockTransactions
        { transaction := some { signatures := ["s"], accountKeys := ["ACC1", "FEE"] },
          meta := some { preBalances := some [100, 50], postBalances := some [90, 50] } }
        ("ACC1")
      = Except.ok [] ∧
    parseOutgoing
        { transaction := some { signatures := ["s"], accountKeys := ["ACC1", "FEE"] },
          meta := some { preBalances := some [100, 50], postBalances := some [90, 50] } }
        ("ACC1")
      = Except.ok (some { amount := mkRat 10 1000000000, receiver := none }) := by
  exact extract_no_gain_behaviour ["s"] ["ACC1", "FEE"] [100, 50] [90, 50] ("ACC1") 0 10
    (by decide) (by decide) (by decide) (by decide) (by decide)

/-- C9 counterexample: with the duplicate account key AAA listed twice, the
target AAA at index 0 loses 3 lamports and index 1 gains 3 lamports, so the
emitted event names AAA itself as receiver: the receiver guard compares
indices, not addresses, so the receiver of an emitted event is not always a
different account than the target. -/
theorem receiver_duplicate_key_counterexample :
    parseBlockTransactions
        { transaction := some { signatures := ["s"], accountKeys := ["AAA", "AAA"] },
          meta := some { preBalances := some [10, 5], postBalances := some [7, 8] } }
        ("AAA")
      = Except.ok [{ amount := mkRat 3 1000000000, receiver := "AAA" }] := by decide

/-- C9 amended: whenever an extractor reports a receiver, that receiver is
read from an index distinct from the matched target index whose balance
strictly increased; when the account keys are pairwise distinct the
receiver therefore differs from the target address. -/
theorem receiver_gain_positive
    (sigs keys : List String) (pre post : List Int) (target : String) (idx : ℕ)
    (hidx : findIdxA (fun k => k == target) keys = some idx) :
    (∀ (l : List Outflow) (o : Outflow),
        parseBlockTransactions
            { transaction := some { signatures := sigs, accountKeys := keys },
              meta := some { preBalances := some pre, postBalances := some post } } target
          = Except.ok l → o ∈ l →
        ∃ j, j < post.length ∧ j ≠ idx ∧ 0 < post.getD j 0 - pre.getD j 0 ∧
          o.receiver = (keys.get? j).getD ("undefined") ∧
          (keys.Nodup → ∀ r, keys.get? j = some r → r ≠ target)) ∧
    (∀ (res : OutgoingResult) (r : String),
        parseOutgoing
            { transaction := some { signatures := sigs, accountKeys := keys },
              meta := some { preBalances := some pre, postBalances := some post } } target
          = Except.ok (some res) → res.receiver = some r →
        ∃ j, j < pre.length ∧ j ≠ idx ∧ 0 < post.getD j 0 - pre.getD j 0 ∧
          keys.get? j = some r ∧ (keys.Nodup → r ≠ target)) := by
  obtain ⟨a, hga, hpa⟩ := findIdxA_some (fun k => k == target) keys idx hidx
  have hat : a = target := by simpa using hpa
  rw [hat] at hga
  have hidxlen : idx < keys.length := (List.get?_eq_some.mp hga).1
  have hne_of_nodup : ∀ j r, j ≠ idx → keys.get? j = some r → keys.Nodup → r ≠ target := by
    intro j r hji hj hnd hrt
    subst hrt
    have hjlen : j < keys.length := (List.get?_eq_some.mp hj).1
    exact hji (List.get?_inj hjlen hnd (hj.trans hga.symm))
  constructor
  · intro l o hl ho
    simp only [parseBlockTransactions, hidx] at hl
    by_cases hlt : 0 < pre.getD idx 0 - post.getD idx 0
    · rw [if_pos hlt] at hl
      rcases maxGainFold_shape (fun i => (keys.get? i).getD ("undefined")) ("")
          pre post idx post.length with h0 | ⟨j, hj, hji, hjpos, heq⟩
      · rw [show findReceiver keys pre post idx = ("", 0) from h0] at hl
        rw [if_neg (by simp)] at hl
        simp only [Except.ok.injEq] at hl
        rw [← hl] at ho
        exact absurd ho (List.not_mem_nil o)
      · rw [show findReceiver keys pre post idx =
            ((keys.get? j).getD ("undefined"), post.getD j 0 - pre.getD j 0) from heq] at hl
        by_cases hc : (keys.get? j).getD ("undefined") ≠ "" ∧
            0 < post.getD j 0 - pre.getD j 0
        · rw [if_pos hc] at hl
          simp only [Except.ok.injEq] at hl
          rw [← hl] at ho
          simp only [List.mem_singleton] at ho
          subst ho
          exact ⟨j, hj, hji, hjpos, rfl, fun hnd r hr => hne_of_nodup j r hji hr hnd⟩
        · rw [if_neg hc] at hl
          simp only [Except.ok.injEq] at hl
          rw [← hl] at ho
          exact absurd ho (List.not_mem_nil o)
    · rw [if_neg hlt] at hl
      simp only [Except.ok.injEq] at hl
      rw [← hl] at ho
      exact absurd ho (List.not_mem_nil o)
  · intro res r hres hr
    simp only [parseOutgoing, hidx] at hres
    by_cases hlt : 0 < pre.getD idx 0 - post.getD idx 0
    · rw [if_pos hlt] at hres
      rcases maxGainFold_shape (fun i => keys.get? i) none pre post idx pre.length with
        h0 | ⟨j, hj, hji, hjpos, heq⟩
      · rw [show findReceiverOutgoing keys pre post idx = (none, 0) from h0] at hres
        simp only [Except.ok.injEq, Option.some.injEq] at hres
        rw [← hres] at hr
        exact absurd hr (by simp)
      · rw [show findReceiverOutgoing keys pre post idx =
            (keys.get? j, post.getD j 0 - pre.getD j 0) from heq] at hres
        simp only [Except.ok.injEq, Option.some.injEq] at hres
        rw [← hres] at hr
        simp only at hr
        exact ⟨j, hj, hji, hjpos, hr, fun hnd => hne_of_nodup j r hji hr hnd⟩
    · rw [if_neg hlt] at hres
      exact absurd hres (by simp)

/-- Witness for the C9 amended theorem: in a duplicate-free transaction the
reported receiver B comes from index 1, whose balance strictly increased,
and differs from the target A. -/
theorem receiver_gain_positive_witness :
    ∃ j, j < 2 ∧ j ≠ 0 ∧
      (0 : Int) < ([7, 3] : List Int).getD j 0 - ([10, 0] : List Int).getD j 0 ∧
      (({ amount := mkRat 3 1000000000, receiver := "B" } : Outflow)).receiver =
        ((["A", "B"] : List String).get? j).getD ("undefined") ∧
      ((["A", "B"] : List String).Nodup →
        ∀ r, (["A", "B"] : List String).get? j = some r → r ≠ "A") := by
  exact (receiver_gain_positive ["s"] ["A", "B"] [10, 0] [7, 3] ("A") 0 (by decide)).1
    [{ amount := mkRat 3 1000000000, receiver := "B" }]
    { amount := mkRat 3 1000000000, receiver := "B" } (by decide) (by decide)

/-- Fetch outcomes of the transient-failure drain scenario: slot 103, the
third slot past the watermark 100, fails transiently; every other slot is
present with an empty transaction list. -/
def fetchScenario (s : ℕ) : FetchResult :=
  if s = 103 then FetchResult.transientError else FetchResult.present []

/-- C1: with watermark 100, slots 101 and 102 present and slot 103 failing
transiently, a drain whose gap fits one batch (current slot 116, batch size
16) leaves the watermark at 102, as the claim states; but when the gap
spans a second batch (current slot 117), the loop keeps draining the later
batch after the first one stopped, and the watermark jumps to 117: it
advances past the failed slot 103 and past the never-fetched slots 104 to
116, which are not retried on the next iteration. This contradicts the
in-code comments promising advancement only over a contiguous processed or
skipped prefix, so the cross-batch behaviour is a defect of the code rather
than of the claim. -/
theorem watermark_transient_failure_eval :
    (drainGap [] fetchScenario 100 116 16).1 = 102 ∧
    (drainGap [] fetchScenario 100 117 16).1 = 117 := by decide

/-- C2 counterexample: with a persisted watermark of 5 and current height
100, the loop seeds its in-memory watermark to 100 — the persisted map is
loaded but never consulted — so the first slot it will process is 101, not
5 + 1 = 6; and with no persisted watermark the seed is the current height
100 itself, not 100 - 1 = 99. -/
theorem startup_seed_counterexample :
    initLastSlot (some 5) (Except.ok 100) = 100 ∧
    initLastSlot none (Except.ok 100) = 100 ∧
    gapSlots (initLastSlot (some 5) (Except.ok 100)) 103 = [101, 102, 103] := by decide

/-- C2 amended: at startup the watermark is seeded to the current provider
height whatever the persisted value holds, monitoring then begins strictly
with the next height, and a failed initial height query leaves the seed at
0. -/
theorem startup_seed_amended :
    (∀ (p : Option ℕ) (h : ℕ), initLastSlot p (Except.ok h) = h) ∧
    (∀ p : Option ℕ, initLastSlot p (Except.error ()) = 0) ∧
    (∀ (p : Option ℕ) (h H : ℕ), h < H →
        (gapSlots (initLastSlot p (Except.ok h)) H).head? = some (h + 1)) := by
  refine ⟨fun p h => rfl, fun p => rfl, ?_⟩
  intro p h H hH
  show (List.range' (h + 1) (H - h)).head? = some (h + 1)
  obtain ⟨k, hk⟩ : ∃ k, H - h = k + 1 := ⟨H - h - 1, by omega⟩
  rw [hk]
  rfl

/-- Witness for the C2 amended theorem at concrete heights. -/
theorem startup_seed_amended_witness :
    (gapSlots (initLastSlot (some 7) (Except.ok 50)) 52).head? = some 51 := by
  exact startup_seed_amended.2.2 (some 7) 50 52 (by decide)

/-- Watched wallet used in the concrete drain scenarios. -/
def cfgScenario : CexConfig := { label := "OKX", address := "ACC1", ranges := "17-21" }

/-- Transaction in which ACC1 sends 19.5 SOL to ACC2, matching the range of
`cfgScenario`. -/
def txMatching : Tx :=
  { transaction := some { signatures := ["sigG"], accountKeys := ["ACC1", "ACC2"] },
    meta := some { preBalances := some [20000000000, 1000],
                   postBalances := some [500000000, 19500001000] } }

/-- Malformed record without a transaction object: reading its signature
array throws at runtime. -/
def txMalformed : Tx :=
  { transaction := none, meta := some { preBalances := some [], postBalances := some [] } }

/-- Alert dispatched for `txMatching` under `cfgScenario`. -/
def alertScenario : Alert :=
  { label := "OKX", amount := mkRat 19500000000 1000000000,
    receiver := "ACC2", signature := "sigG" }

/-- C3 counterexample: a block holding the malformed record followed by the
matching transaction yields no alert at all and no watermark advance — the
throw on the first record aborts the whole block — although the same block
without the malformed record yields the alert. The error is contained per
block, not per transaction, so it does abort the processing of the
remaining transactions of the surrounding block. -/
theorem tx_error_containment_counterexample :
    drainBatch [cfgScenario] [(101, FetchResult.present [txMalformed, txMatching])] 100
      = (100, []) ∧
    drainBatch [cfgScenario] [(101, FetchResult.present [txMatching])] 100
      = (101, [MonitorEffect.alert alertScenario]) := by decide

theorem foldl_fixed {α β : Type} (f : β → α → β) (p : β → Prop)
    (hf : ∀ b a, p b → f b a = b) :
    ∀ (l : List α) (b : β), p b → l.foldl f b = b := by
  intro l
  induction l with
  | nil => intro b _; rfl
  | cons x xs ih =>
    intro b hb
    rw [List.foldl_cons, hf b x hb]
    exact ih b hb

/-- C3 amended: a throw while decoding or matching one transaction aborts
the surrounding block: the remaining transactions contribute nothing, the
drain of the current batch stops with the watermark at the previous
processed height, so the block is left to be refetched instead of being
half-committed, and alerts dispatched before the throw stay dispatched; the
throw is absorbed by the drain and does not crash the monitor loop. -/
theorem tx_error_aborts_block :
    (∀ (configs : List CexConfig) (txs : List Tx) (s p : ℕ)
        (rest : List (ℕ × FetchResult)),
        (processBlockTxs configs txs).2 = false →
        drainBatch configs ((s, FetchResult.present txs) :: rest) p
          = (p, (processBlockTxs configs txs).1.map MonitorEffect.alert)) ∧
    (∀ (configs : List CexConfig) (tx : Tx) (more : List Tx),
        (processTx configs tx).2 = false →
        processBlockTxs configs (tx :: more) = ((processTx configs tx).1, false)) := by
  constructor
  · intro configs txs s p rest h
    simp [drainBatch, h]
  · intro configs tx more h
    show List.foldl (fun (acc : List Alert × Bool) t =>
        if acc.2 then (acc.1 ++ (processTx configs t).1, (processTx configs t).2)
        else acc)
      ((processTx configs tx).1, (processTx configs tx).2) more
      = ((processTx configs tx).1, false)
    rw [h]
    exact foldl_fixed _ (fun b => b.2 = false) (fun b a hb => by simp [hb])
      more ((processTx configs tx).1, false) rfl

/-- Witness for the C3 amended theorem at the concrete block. -/
theorem tx_error_aborts_block_witness :
    drainBatch [cfgScenario] [(101, FetchResult.present [txMalformed, txMatching])] 100
      = (100, ([] : List MonitorEffect)) := by
  have h := tx_error_aborts_block.1 [cfgScenario] [txMalformed, txMatching] 101 100 []
    (by decide)
  rw [h]
  decide

/-- C4 counterexample: over a gap of one present empty block the polling
monitor advances the watermark from 100 to 101 while emitting no effect at
all: no saveLastSlot call follows the advance, because startBlockMonitor
never persists the watermark (its saveLastSlot helper is dead code). -/
theorem polling_no_save_counterexample :
    drainGap [] (fun _ => FetchResult.present []) 100 101 16 = (101, []) := by decide

theorem drainBatch_effects_alert (configs : List CexConfig) :
    ∀ (b : List (ℕ × FetchResult)) (p : ℕ) (e : MonitorEffect),
      e ∈ (drainBatch configs b p).2 → ∃ a, e = MonitorEffect.alert a := by
  intro b
  induction b with
  | nil => intro p e he; exact absurd he (List.not_mem_nil e)
  | cons hd tl ih =>
    obtain ⟨s, r⟩ := hd
    intro p e he
    cases r with
    | present txs =>
      by_cases hp : (processBlockTxs configs txs).2 = true
      · simp only [drainBatch, if_pos hp] at he
        rcases List.mem_append.mp he with h1 | h2
        · obtain ⟨a, _, hae⟩ := List.mem_map.mp h1
          exact ⟨a, hae.symm⟩
        · exact ih s e h2
      · simp only [drainBatch, if_neg hp] at he
        obtain ⟨a, _, hae⟩ := List.mem_map.mp he
        exact ⟨a, hae.symm⟩
    | skippedOrMissing =>
      simp only [drainBatch] at he
      exact ih s e he
    | transientError =>
      simp only [drainBatch] at he
      exact absurd he (List.not_mem_nil e)
    | notProduced =>
      simp only [drainBatch] at he
      exact absurd he (List.not_mem_nil e)

theorem drainGap_effects_alert (configs : List CexConfig) (fetch : ℕ → FetchResult)
    (lastSlot slot conc : ℕ) (e : MonitorEffect) :
    e ∈ (drainGap configs fetch lastSlot slot conc).2 → ∃ a, e = MonitorEffect.alert a := by
  unfold drainGap
  by_cases h : lastSlot < slot
  · rw [if_pos h]
    have main : ∀ (bs : List (List ℕ)) (st : ℕ × List MonitorEffect),
        (∀ e2, e2 ∈ st.2 → ∃ a, e2 = MonitorEffect.alert a) →
        ∀ e2, e2 ∈ (bs.foldl (fun st batch =>
            let dr := drainBatch configs (batch.map (fun s => (s, fetch s))) st.1
            ((if st.1 < dr.1 then dr.1 else st.1), st.2 ++ dr.2)) st).2 →
          ∃ a, e2 = MonitorEffect.alert a := by
      intro bs
      induction bs with
      | nil => intro st hst e2 he2; exact hst e2 he2
      | cons b bs ih =>
        intro st hst e2 he2
        rw [List.foldl_cons] at he2
        refine ih _ ?_ e2 he2
        intro e3 he3
        rcases List.mem_append.mp he3 with h1 | h2
        · exact hst e3 h1
        · exact drainBatch_effects_alert configs _ st.1 e3 h2
    exact main _ (lastSlot, []) (fun e2 he2 => absurd he2 (List.not_mem_nil e2)) e
  · rw [if_neg h]
    intro he
    exact absurd he (List.not_mem_nil e)

theorem processQueue_advance_saves (configs : List CexConfig)
    (fetch : ℕ → Except Unit (Option (List Tx))) (saveOk : ℕ → Bool) :
    ∀ (q : List ℕ) (ls : ℕ),
      ls ≤ (processQueue configs fetch saveOk q ls).lastSlot ∧
      ((processQueue configs fetch saveOk q ls).lastSlot ≠ ls →
        MonitorEffect.saveWatermark (processQueue configs fetch saveOk q ls).lastSlot
          ∈ (processQueue configs fetch saveOk q ls).effects) := by
  intro q
  induction q with
  | nil => intro ls; exact ⟨le_refl ls, fun h => absurd rfl h⟩
  | cons s rest ih =>
    intro ls
    by_cases h1 : s ≤ ls
    · simp only [processQueue, if_pos h1]
      exact ih ls
    · have hls : ls < s := not_le.mp h1
      cases hf : fetch s with
      | error u =>
        simp only [processQueue, if_neg h1, hf]
        exact ⟨le_refl ls, fun h => absurd rfl h⟩
      | ok ob =>
        cases ob with
        | none =>
          by_cases hs : saveOk s = true
          · simp only [processQueue, if_neg h1, hf, if_pos hs]
            obtain ⟨ih1, ih2⟩ := ih s
            refine ⟨le_trans (le_of_lt hls) ih1, fun _ => ?_⟩
            by_cases heq : (processQueue configs fetch saveOk rest s).lastSlot = s
            · show MonitorEffect.saveWatermark _ ∈ _ :: _
              rw [heq]
              exact List.mem_cons_self _ _
            · exact List.mem_cons_of_mem _ (ih2 heq)
          · simp only [processQueue, if_neg h1, hf, if_neg hs]
            exact ⟨le_of_lt hls, fun _ => List.mem_cons_self _ _⟩
        | some txs =>
          by_cases hp : (processBlockTxs configs txs).2 = true
          · by_cases hs : saveOk s = true
            · simp only [processQueue, if_neg h1, hf, if_pos hp, if_pos hs]
              obtain ⟨ih1, ih2⟩ := ih s
              refine ⟨le_trans (le_of_lt hls) ih1, fun _ => ?_⟩
              refine List.mem_append.mpr (Or.inr ?_)
              by_cases heq : (processQueue configs fetch saveOk rest s).lastSlot = s
              · show MonitorEffect.saveWatermark _ ∈ _ :: _
                rw [heq]
                exact List.mem_cons_self _ _
              · exact List.mem_cons_of_mem _ (ih2 heq)
            · simp only [processQueue, if_neg h1, hf, if_pos hp, if_neg hs]
              refine ⟨le_of_lt hls, fun _ => ?_⟩
              exact List.mem_append.mpr (Or.inr (List.mem_cons_self _ _))
          · simp only [processQueue, if_neg h1, hf, if_neg hp]
            exact ⟨le_refl ls, fun h => absurd rfl h⟩

/-- C4 amended: in the polling monitor every effect of a gap drain is an
alert — the watermark advance is never followed by a persistence call — and
in the listener monitor every watermark advance is accompanied by a
saveLastSlot call for the new watermark, and when that save fails the
in-memory watermark keeps its advanced value. -/
theorem watermark_save_behaviour :
    (∀ (configs : List CexConfig) (fetch : ℕ → FetchResult) (lastSlot slot conc : ℕ)
        (e : MonitorEffect), e ∈ (drainGap configs fetch lastSlot slot conc).2 →
        ∃ a, e = MonitorEffect.alert a) ∧
    (∀ (configs : List CexConfig) (fetch : ℕ → Except Unit (Option (List Tx)))
        (saveOk : ℕ → Bool) (q : List ℕ) (ls : ℕ),
        ls ≤ (processQueue configs fetch saveOk q ls).lastSlot ∧
        ((processQueue configs fetch saveOk q ls).lastSlot ≠ ls →
          MonitorEffect.saveWatermark (processQueue configs fetch saveOk q ls).lastSlot
            ∈ (processQueue configs fetch saveOk q ls).effects)) ∧
    (∀ (configs : List CexConfig) (fetch : ℕ → Except Unit (Option (List Tx)))
        (saveOk : ℕ → Bool) (s : ℕ) (rest : List ℕ) (ls : ℕ) (txs : List Tx),
        ls < s → fetch s = Except.ok (some txs) →
        (processBlockTxs configs txs).2 = true → saveOk s = false →
        (processQueue configs fetch saveOk (s :: rest) ls).lastSlot = s ∧
        MonitorEffect.saveWatermark s ∈
          (processQueue configs fetch saveOk (s :: rest) ls).effects) := by
  refine ⟨drainGap_effects_alert, processQueue_advance_saves, ?_⟩
  intro configs fetch saveOk s rest ls txs hls hf hp hs
  have h1 : ¬ s ≤ ls := not_le.mpr hls
  have hsf : ¬ saveOk s = true := by rw [hs]; exact Bool.false_ne_true
  simp only [processQueue, if_neg h1, hf, if_pos hp, if_neg hsf]
  exact ⟨trivial, List.mem_append.mpr (Or.inr (List.mem_cons_self _ _))⟩

/-- Witness for the C4 amended theorem: slot 5 is processed, the save of
the new watermark 5 is attempted and fails, and the in-memory watermark
still ends at 5. -/
theorem watermark_save_behaviour_witness :
    (processQueue [] (fun _ => Except.ok (some [])) (fun _ => false) [5] 3).lastSlot = 5 ∧
    MonitorEffect.saveWatermark 5 ∈
      (processQueue [] (fun _ => Except.ok (some [])) (fun _ => false) [5] 3).effects := by
  exact watermark_save_behaviour.2.2 [] (fun _ => Except.ok (some [])) (fun _ => false)
    5 [] 3 [] (by decide) rfl rfl rfl

end CexTracker
